import Mathlib

/-!
Verification of the configuration loader/resolver in `gertty/config.py`
(`ConfigSchema` and `Config.__init__` / `Config.getServer`).

Modelling conventions:
* Python strings are modelled as `List Char` (`PyStr`); `str.endswith(x)`
  is the list-suffix test `x <:+ s`.
* Python dictionaries are modelled as association lists together with the
  operations `dictGet` (`d.get(k)` / `d[k]`), `dictSet` (`d[k] = v`, which
  overwrites the value of an existing key in place, keeping its position,
  and appends a new key at the end — the behaviour of `dict` and
  `collections.OrderedDict` item assignment) and `dictUpdate`
  (`d.update(other)`, a shallow merge).
* Fatal termination (`sys.exit(1)`) is modelled with `Except`.
* Machine integers do not overflow in the modelled fragment; `st_mode`
  is a `Nat` and the mask `st_mode & 0o0777` is written `st_mode % 0o1000`
  (the low nine bits).
-/

namespace Gertty

/-- Python strings, modelled as character lists. -/
abbrev PyStr := List Char

/-- Association-list model of a Python dict. -/
abbrev Dict (α : Type) := List (PyStr × α)

/-- `d.get(k)` / `d[k]`: value at the first occurrence of key `k`. -/
def dictGet {α : Type} : Dict α → PyStr → Option α
  | [], _ => none
  | (k0, v0) :: rest, k => if k0 = k then some v0 else dictGet rest k

/-- `d[k] = v`: overwrite an existing key in place (keeping its position),
otherwise append the new binding at the end. -/
def dictSet {α : Type} : Dict α → PyStr → α → Dict α
  | [], k, v => [(k, v)]
  | (k0, v0) :: rest, k, v =>
      if k0 = k then (k, v) :: rest else (k0, v0) :: dictSet rest k v

/-- The keys of a dict, in iteration order. -/
def dictKeys {α : Type} : Dict α → List PyStr
  | [] => []
  | (k0, _) :: rest => k0 :: dictKeys rest

/-- `base.update(new)`: shallow merge, assigning every binding of `new`
into `base` in order. -/
def dictUpdate {α : Type} (base new : Dict α) : Dict α :=
  new.foldl (fun d kv => dictSet d kv.1 kv.2) base

section DictLemmas

variable {α : Type}

theorem dictGet_dictSet (d : Dict α) (k k' : PyStr) (v : α) :
    dictGet (dictSet d k v) k' = if k' = k then some v else dictGet d k' := by
  induction d with
  | nil =>
    by_cases h : k' = k
    · subst h; simp [dictSet, dictGet]
    · have h2 : ¬ k = k' := fun hh => h hh.symm
      simp [dictSet, dictGet, h, h2]
  | cons hd tl ih =>
    obtain ⟨k0, v0⟩ := hd
    simp only [dictSet]
    by_cases h0 : k0 = k
    · subst h0
      rw [if_pos rfl]
      by_cases h : k' = k0
      · subst h; simp [dictGet]
      · have h2 : ¬ k0 = k' := fun hh => h hh.symm
        simp [dictGet, h, h2]
    · rw [if_neg h0]
      by_cases h2 : k0 = k'
      · subst h2
        simp [dictGet, h0]
      · simp [dictGet, h2, ih]

theorem dictGet_dictSet_self (d : Dict α) (k : PyStr) (v : α) :
    dictGet (dictSet d k v) k = some v := by
  simp [dictGet_dictSet]

theorem dictGet_dictSet_ne (d : Dict α) (k k' : PyStr) (v : α) (h : k' ≠ k) :
    dictGet (dictSet d k v) k' = dictGet d k' := by
  simp [dictGet_dictSet, h]

theorem dictKeys_dictSet (d : Dict α) (k : PyStr) (v : α) :
    dictKeys (dictSet d k v) =
      if k ∈ dictKeys d then dictKeys d else dictKeys d ++ [k] := by
  induction d with
  | nil => simp [dictSet, dictKeys]
  | cons hd tl ih =>
    obtain ⟨k0, v0⟩ := hd
    simp only [dictSet]
    by_cases h0 : k0 = k
    · subst h0
      rw [if_pos rfl]
      simp [dictKeys]
    · rw [if_neg h0]
      have hk : ¬ k = k0 := fun hh => h0 hh.symm
      simp only [dictKeys, ih]
      by_cases hmem : k ∈ dictKeys tl
      · rw [if_pos hmem, if_pos (List.mem_cons_of_mem k0 hmem)]
      · have hmem' : k ∉ k0 :: dictKeys tl := by
          intro hcon
          rcases List.mem_cons.mp hcon with h | h
          · exact hk h
          · exact hmem h
        rw [if_neg hmem, if_neg hmem']
        simp

theorem dictGet_isSome_of_mem (d : Dict α) (k : PyStr)
    (h : k ∈ dictKeys d) : (dictGet d k).isSome := by
  induction d with
  | nil => simp [dictKeys] at h
  | cons hd tl ih =>
    obtain ⟨k0, v0⟩ := hd
    by_cases h0 : k0 = k
    · simp [dictGet, h0]
    · have hk : ¬ k = k0 := fun hh => h0 hh.symm
      have hmem : k ∈ dictKeys tl := by
        simp only [dictKeys] at h
        rcases List.mem_cons.mp h with h | h
        · exact absurd h hk
        · exact h
      simp [dictGet, h0, ih hmem]

theorem mem_of_dictGet_isSome (d : Dict α) (k : PyStr)
    (h : (dictGet d k).isSome) : k ∈ dictKeys d := by
  induction d with
  | nil => simp [dictGet] at h
  | cons hd tl ih =>
    obtain ⟨k0, v0⟩ := hd
    by_cases h0 : k0 = k
    · simp [dictKeys, h0]
    · simp only [dictGet, if_neg h0] at h
      simp only [dictKeys]
      exact List.mem_cons_of_mem k0 (ih h)

theorem dictGet_eq_none_of_not_mem (d : Dict α) (k : PyStr)
    (h : k ∉ dictKeys d) : dictGet d k = none := by
  cases hg : dictGet d k with
  | none => rfl
  | some v =>
    exact absurd (mem_of_dictGet_isSome d k (by simp [hg])) h

theorem dictGet_dictUpdate (base new : Dict α) (k : PyStr)
    (hnd : (dictKeys new).Nodup) :
    dictGet (dictUpdate base new) k =
      ((dictGet new k).or (dictGet base k)) := by
  induction new generalizing base with
  | nil => simp [dictUpdate, dictGet]
  | cons hd tl ih =>
    obtain ⟨k0, v0⟩ := hd
    simp only [dictKeys] at hnd
    have hnd' : (dictKeys tl).Nodup := (List.nodup_cons.mp hnd).2
    have hk0 : k0 ∉ dictKeys tl := (List.nodup_cons.mp hnd).1
    have step : dictUpdate base ((k0, v0) :: tl) =
        dictUpdate (dictSet base k0 v0) tl := by
      simp [dictUpdate]
    rw [step, ih _ hnd']
    by_cases h : k0 = k
    · subst h
      rw [dictGet_eq_none_of_not_mem tl k0 hk0, dictGet_dictSet_self]
      simp [dictGet]
    · have h' : ¬ k = k0 := fun hh => h hh.symm
      rw [dictGet_dictSet_ne base k0 k v0 h']
      simp only [dictGet, if_neg h]

end DictLemmas

/-! ### URL normalization (`Config.__init__`, lines 157–160 and 190–193)

```
url = server['url']
if not url.endswith('/'):
    url += '/'
self.url = url
...
git_url = server.get('git-url', self.url + 'p/')
if not git_url.endswith('/'):
    git_url += '/'
self.git_url = git_url
```
-/

/-- `s.endswith('/')` — append `'/'` when absent. -/
def ensureTrailingSlash (s : PyStr) : PyStr :=
  if ['/'] <:+ s then s else s ++ ['/']

/-- Resolved `self.url` from the server record's `url`. -/
def resolveUrl (server_url : PyStr) : PyStr :=
  ensureTrailingSlash server_url

/-- Resolved `self.git_url` from the optional `git-url` field; the default
is the already-resolved `self.url` with `p/` appended. -/
def resolveGitUrl (git_url : Option PyStr) (resolved_url : PyStr) : PyStr :=
  ensureTrailingSlash (git_url.getD (resolved_url ++ ['p', '/']))

/-- The property claimed in the spec: the string ends with one slash and
not with two. -/
abbrev endsWithExactlyOneSlash (s : PyStr) : Prop :=
  (['/'] <:+ s) ∧ ¬ (['/', '/'] <:+ s)

theorem slash_suffix_ensureTrailingSlash (s : PyStr) :
    ['/'] <:+ ensureTrailingSlash s := by
  unfold ensureTrailingSlash
  by_cases h : ['/'] <:+ s
  · rw [if_pos h]; exact h
  · rw [if_neg h]
    exact ⟨s, rfl⟩

theorem ensureTrailingSlash_exactlyOne (s : PyStr)
    (h : ¬ (['/', '/'] <:+ s)) :
    endsWithExactlyOneSlash (ensureTrailingSlash s) := by
  unfold ensureTrailingSlash
  by_cases hs : ['/'] <:+ s
  · rw [if_pos hs]
    exact ⟨hs, h⟩
  · rw [if_neg hs]
    constructor
    · exact ⟨s, rfl⟩
    · rintro ⟨t, ht⟩
      apply hs
      have h1 : (t ++ ['/']) ++ ['/'] = s ++ ['/'] := by
        simpa using ht
      have h2 : t ++ ['/'] = s := List.append_cancel_right h1
      exact ⟨t, h2⟩

theorem not_two_slash_append_p (u : PyStr) :
    ¬ (['/', '/'] <:+ u ++ ['p', '/']) := by
  rintro ⟨t, ht⟩
  have h1 : (t ++ ['/']) ++ ['/'] = (u ++ ['p']) ++ ['/'] := by
    simpa using ht
  have h2 : t ++ ['/'] = u ++ ['p'] := List.append_cancel_right h1
  have h3 : (t ++ ['/']).getLast? = (u ++ ['p']).getLast? := by rw [h2]
  simp [List.getLast?_concat] at h3

/-! ### Schema scalar values and the thresholds validator
(`ConfigSchema`, lines 115–118)

```
thresholds = [int, int, int, int, int, int, int, int]
```

voluptuous list-schema semantics: the data must be a list, and every
element of the data must satisfy at least one of the member validators;
the length of the data is not constrained by the schema list.
-/

/-- Scalar values appearing in the validated document. -/
inductive Scalar : Type
  | int (n : Int)
  | str (s : PyStr)
  | bool (b : Bool)
  | null
deriving DecidableEq

/-- The voluptuous `int` type validator, `isinstance(value, int)`;
Python `bool` is a subclass of `int`, so booleans pass too. -/
def isIntValue : Scalar → Bool
  | .int _ => true
  | .bool _ => true
  | _ => false

/-- voluptuous validation of a list-shaped schema against list data:
each element must match some member validator. -/
def validateListSchema (members : List (Scalar → Bool)) (xs : List Scalar) : Bool :=
  xs.all (fun x => members.any (fun m => m x))

/-- `ConfigSchema.thresholds = [int, int, int, int, int, int, int, int]`. -/
def thresholdsSchema : List (Scalar → Bool) :=
  [isIntValue, isIntValue, isIntValue, isIntValue,
   isIntValue, isIntValue, isIntValue, isIntValue]

/-- Whether a `size-column.thresholds` value passes schema validation. -/
def thresholdsValid (xs : List Scalar) : Bool :=
  validateListSchema thresholdsSchema xs

theorem thresholdsValid_eq_all_int (xs : List Scalar) :
    thresholdsValid xs = xs.all isIntValue := by
  unfold thresholdsValid validateListSchema
  induction xs with
  | nil => rfl
  | cons x rest ih =>
    simp only [List.all_cons, ih]
    have hx : thresholdsSchema.any (fun m => m x) = isIntValue x := by
      cases hv : isIntValue x <;> simp [thresholdsSchema, hv]
    rw [hx]

/-! ### Server records and `Config.getServer` (lines 42–55 and 271–275)

```
def getServer(self, name=None):
    for server in self.config['servers']:
        if name is None or name == server['name']:
            return server
    return None
```
-/

/-- `auth-type`: one of `basic`, `digest`, `form`. -/
inductive AuthType : Type
  | basic
  | digest
  | form
deriving DecidableEq

/-- One entry of the `servers` list, after schema validation
(`ConfigSchema.server`). -/
structure ServerRecord : Type where
  name : PyStr
  url : PyStr
  username : PyStr
  password : Option PyStr := none
  verifySsl : Option Bool := none
  sslCaPath : Option PyStr := none
  dburi : Option PyStr := none
  gitRoot : PyStr
  gitUrl : Option PyStr := none
  logFile : Option PyStr := none
  lockFile : Option PyStr := none
  socket : Option PyStr := none
  authType : Option AuthType := none
deriving DecidableEq

/-- `Config.getServer`: scan the `servers` list; return the first record
when no name is requested, the first record with a matching `name`
otherwise, and `None` when nothing matches. -/
def getServer : List ServerRecord → Option PyStr → Option ServerRecord
  | [], _ => none
  | s :: rest, name =>
      if name = none ∨ name = some s.name then some s else getServer rest name

/-! ### Credential resolution (`Config.__init__`, lines 164–177)

```
self.password = server.get('password')
if self.password is None:
    self.password = getpass.getpass(...)
else:
    mode = os.stat(self.path).st_mode & 0o0777
    if not mode == 0o600:
        print("Error: Config file '{}' contains a password and does "
              "not have permissions set to 0600...".format(...))
        sys.exit(1)
```
-/

/-- The data shown by the fatal permission error: the config path and the
observed permission bits. -/
structure PermError : Type where
  path : PyStr
  mode : Nat
deriving DecidableEq

/-- Credential resolution: a stored password is used only if the config
file mode (low nine bits of `st_mode`) is exactly `0o600`, else a fatal
error carrying path and mode; with no stored password the interactively
prompted string is used and no permission check happens. -/
def resolvePassword (path : PyStr) (st_mode : Nat)
    (server_password : Option PyStr) (prompted : PyStr) :
    Except PermError PyStr :=
  match server_password with
  | none => .ok prompted
  | some pw =>
      let mode := st_mode % 0o1000
      if mode = 0o600 then .ok pw else .error ⟨path, mode⟩

/-! ### Size-column resolution (`Config.__init__`, lines 262–269)

```
self.size_column = self.config.get('size-column', {})
self.size_column['type'] = self.size_column.get('type', 'graph')
if self.size_column['type'] == 'graph':
    self.size_column['thresholds'] = self.size_column.get('thresholds',
        [1, 10, 100, 1000])
else:
    self.size_column['thresholds'] = self.size_column.get('thresholds',
        [1, 10, 100, 200, 400, 600, 800, 1000])
```
-/

/-- Values of `size-column.type` admitted by the schema:
`v.Any('graph', 'split-graph', 'number', 'disabled', None)`. -/
inductive SCType : Type
  | graph
  | splitGraph
  | number
  | disabled
  | null
deriving DecidableEq

/-- The `size-column` mapping; `ty` models the `type` key (absent key =
`none`) and `thresholds` the `thresholds` key. -/
structure SizeColumn : Type where
  ty : Option SCType
  thresholds : Option (List Int)
deriving DecidableEq

/-- Resolution of `self.size_column`: an absent section acts as `{}`,
`type` defaults to `graph`, and `thresholds` defaults to the 4-value
table for `graph` and to the 8-value table for any other type; supplied
thresholds are kept verbatim. -/
def resolveSizeColumn (doc_sc : Option SizeColumn) : SizeColumn :=
  let sc := doc_sc.getD ⟨none, none⟩
  let t := sc.ty.getD .graph
  let th :=
    if t = .graph then sc.thresholds.getD [1, 10, 100, 1000]
    else sc.thresholds.getD [1, 10, 100, 200, 400, 600, 800, 1000]
  ⟨some t, some th⟩

/-- The document's `size-column` entry after resolution.
`self.size_column = self.config.get('size-column', {})` binds the very
dict object stored in the document when the section is present, so the
item assignments in resolution mutate the document's entry; when the
section is absent a fresh dict is used and the document is untouched. -/
def docSizeColumnAfter (doc_sc : Option SizeColumn) : Option SizeColumn :=
  doc_sc.map (fun _ => resolveSizeColumn doc_sc)

/-! ### Palette and keymap collections (`Config.__init__`, lines 203–220)

```
self.palettes = {'default': gertty.palette.Palette({}),
                 'light': gertty.palette.Palette(gertty.palette.LIGHT_PALETTE)}
for p in self.config.get('palettes', []):
    if p['name'] not in self.palettes:
        self.palettes[p['name']] = gertty.palette.Palette(p)
    else:
        self.palettes[p['name']].update(p)
self.palette = self.palettes[self.config.get('palette', palette)]
```
and the identical loop for keymaps with built-ins `default` and `vi`,
ending in `self.keymap = self.keymaps[self.config.get('keymap', keymap)]`.

Modelled from the spec: `gertty.palette.Palette` and
`gertty.keymap.KeyMap` live in `gertty/palette.py` / `gertty/keymap.py`,
which are not part of the sources here.  Per the spec they are value
objects holding the named attribute fields of their entry (everything
except `name`); constructing one from an entry takes the entry's fields,
and `update` merges the entry's fields into the existing object by a
shallow update, user fields winning on conflict.  They are therefore
modelled as field dictionaries, with `dictUpdate` as `update`.
-/

/-- A palette value object: theme attribute name → list of strings
(the palette schema maps every non-`name` key to `[str]`). -/
abbrev PaletteFields := Dict (List PyStr)

/-- A keymap binding value: the keymap schema allows
`v.Any([[str], str], [str], str)` for every non-`name` key. -/
inductive KeyBinding : Type
  | str (s : PyStr)
  | strs (l : List PyStr)
  | mixed (l : List (Sum (List PyStr) PyStr))
deriving DecidableEq

/-- A keymap value object: binding name → key binding. -/
abbrev KeymapFields := Dict KeyBinding

/-- A user-supplied `palettes`/`keymaps` entry: its required `name` and
its remaining (pattern-matched) fields. -/
structure NamedEntry (β : Type) : Type where
  name : PyStr
  fields : Dict β
deriving DecidableEq

/-- One iteration of the collection loop: insert a fresh value object
when the name is new, otherwise shallow-merge the entry's fields into
the existing object. -/
def mergeStep {β : Type} (m : Dict (Dict β)) (e : NamedEntry β) : Dict (Dict β) :=
  match dictGet m e.name with
  | none => dictSet m e.name e.fields
  | some base => dictSet m e.name (dictUpdate base e.fields)

/-- `self.palettes`: built-ins `default` (empty palette) and `light`
(the alternate color set `LIGHT_PALETTE`, a parameter here), then the
user entries folded in. -/
def resolvePalettes (light : PaletteFields) (entries : List (NamedEntry (List PyStr))) :
    Dict PaletteFields :=
  entries.foldl mergeStep [("default".toList, []), ("light".toList, light)]

/-- `self.keymaps`: built-ins `default` (empty keymap) and `vi`
(the alternate binding set `VI_KEYMAP`, a parameter here), then the
user entries folded in. -/
def resolveKeymaps (vi : KeymapFields) (entries : List (NamedEntry KeyBinding)) :
    Dict KeymapFields :=
  entries.foldl mergeStep [("default".toList, []), ("vi".toList, vi)]

/-- `self.config.get('palette', palette)`: the name of the active
palette — the document's `palette` field when present, else the
construction-time parameter. -/
def resolvePaletteName (doc_palette : Option PyStr) (param : PyStr) : PyStr :=
  doc_palette.getD param

/-- `self.config.get('keymap', keymap)`: the name of the active keymap. -/
def resolveKeymapName (doc_keymap : Option PyStr) (param : PyStr) : PyStr :=
  doc_keymap.getD param

/-- `self.palette = self.palettes[...]`: look the active palette up by
its resolved name (`none` models the `KeyError` for an unknown name). -/
def selectPalette (palettes : Dict PaletteFields)
    (doc_palette : Option PyStr) (param : PyStr) : Option PaletteFields :=
  dictGet palettes (resolvePaletteName doc_palette param)

/-- `self.keymap = self.keymaps[...]`. -/
def selectKeymap (keymaps : Dict KeymapFields)
    (doc_keymap : Option PyStr) (param : PyStr) : Option KeymapFields :=
  dictGet keymaps (resolveKeymapName doc_keymap param)

section MergeLemmas

variable {β : Type}

theorem dictGet_isSome_mergeStep (m : Dict (Dict β)) (e : NamedEntry β)
    (k : PyStr) (h : (dictGet m k).isSome) :
    (dictGet (mergeStep m e) k).isSome := by
  unfold mergeStep
  by_cases hk : k = e.name
  · subst hk
    cases hg : dictGet m e.name <;> simp [hg, dictGet_dictSet_self]
  · cases hg : dictGet m e.name <;>
      simp [hg, dictGet_dictSet_ne _ _ _ _ hk, h]

theorem dictGet_isSome_foldl_mergeStep (entries : List (NamedEntry β))
    (m : Dict (Dict β)) (k : PyStr) (h : (dictGet m k).isSome) :
    (dictGet (entries.foldl mergeStep m) k).isSome := by
  induction entries generalizing m with
  | nil => simpa using h
  | cons e rest ih =>
    simp only [List.foldl_cons]
    exact ih _ (dictGet_isSome_mergeStep m e k h)

theorem mergeStep_insert (m : Dict (Dict β)) (e : NamedEntry β)
    (h : dictGet m e.name = none) :
    dictGet (mergeStep m e) e.name = some e.fields := by
  unfold mergeStep
  rw [h]
  exact dictGet_dictSet_self m e.name e.fields

theorem mergeStep_merge (m : Dict (Dict β)) (e : NamedEntry β)
    (base : Dict β) (h : dictGet m e.name = some base) :
    dictGet (mergeStep m e) e.name = some (dictUpdate base e.fields) := by
  unfold mergeStep
  rw [h]
  exact dictGet_dictSet_self m e.name _

end MergeLemmas

/-! ### Comment-link resolution (`Config.__init__`, lines 222–230)

```
self.commentlinks = [gertty.commentlink.CommentLink(c)
                     for c in self.config.get('commentlinks', [])]
self.commentlinks.append(
    gertty.commentlink.CommentLink(dict(
            match="(?P<url>https?://\\S*)",
            replacements=[
                dict(link=dict(
                        text="{url}",
                        url="{url}"))])))
```
-/

/-- One replacement variant of a comment-link rule
(`ConfigSchema.replacement`). -/
inductive Replacement : Type
  | textStr (txt : PyStr)
  | textDict (color : Option PyStr) (txt : PyStr)
  | link (url : PyStr) (txt : PyStr)
  | search (query : PyStr) (txt : PyStr)
deriving DecidableEq

/-- A validated `commentlinks` entry (`ConfigSchema.commentlink`);
`matchRe` models the `match` key. -/
structure CommentLinkConfig : Type where
  matchRe : PyStr
  replacements : List Replacement
  testResult : Option PyStr := none
deriving DecidableEq

/-- A `gertty.commentlink.CommentLink` value object, an opaque wrapper
around its configuration dict (the class itself lives in
`gertty/commentlink.py`, outside these sources; only its injective
construction matters here). -/
structure CommentLink : Type where
  config : CommentLinkConfig
deriving DecidableEq

/-- The synthetic URL-autolink rule appended after all user rules. -/
def urlAutolinkRule : CommentLinkConfig :=
  { matchRe := "(?P<url>https?://\\S*)".toList,
    replacements := [.link "{url}".toList "{url}".toList] }

/-- `self.commentlinks`: the user rules in document order, then the
synthetic URL-autolink rule appended. -/
def resolveCommentlinks (user : List CommentLinkConfig) : List CommentLink :=
  (user.map CommentLink.mk) ++ [CommentLink.mk urlAutolinkRule]

/-! ### Dashboards and review keys (`Config.__init__`, lines 236–243)

```
self.dashboards = OrderedDict()
for d in self.config.get('dashboards', []):
    self.dashboards[d['key']] = d
    self.dashboards[d['key']]

self.reviewkeys = OrderedDict()
for k in self.config.get('reviewkeys', []):
    self.reviewkeys[k['key']] = k
```
(the bare `self.dashboards[d['key']]` on line 239 is a no-op read).
-/

/-- The `sort-by` enumeration. -/
inductive SortKey : Type
  | number
  | updated
  | lastSeen
  | project
deriving DecidableEq

/-- `sort_by = v.Any(_sort_by, [_sort_by])`: one key or a list of keys. -/
inductive SortBy : Type
  | one (k : SortKey)
  | many (l : List SortKey)
deriving DecidableEq

/-- A validated `dashboards` entry (`ConfigSchema.dashboard`). -/
structure Dashboard : Type where
  name : PyStr
  query : PyStr
  sortBy : Option SortBy := none
  reverse : Option Bool := none
  key : PyStr
deriving DecidableEq

/-- A validated `reviewkeys[].approvals` entry. -/
structure ReviewKeyApproval : Type where
  category : PyStr
  value : Int
deriving DecidableEq

/-- A validated `reviewkeys` entry (`ConfigSchema.reviewkey`). -/
structure ReviewKey : Type where
  approvals : List ReviewKeyApproval
  message : Option PyStr := none
  submit : Option Bool := none
  key : PyStr
deriving DecidableEq

/-- `self.dashboards`: the loop assigning each entry under its `key`
into an insertion-ordered mapping. -/
def resolveDashboards (ds : List Dashboard) : Dict Dashboard :=
  ds.foldl (fun m d => dictSet m d.key d) []

/-- `self.reviewkeys`: same loop for review keys. -/
def resolveReviewkeys (ks : List ReviewKey) : Dict ReviewKey :=
  ks.foldl (fun m x => dictSet m x.key x) []

/-- The last element of `entries` whose key is `k` (the survivor under
repeated overwriting). -/
def lastWithKey {α : Type} (key : α → PyStr) : List α → PyStr → Option α
  | [], _ => none
  | d :: rest, k =>
      match lastWithKey key rest k with
      | some x => some x
      | none => if key d = k then some d else none

/-- First-occurrence deduplication, keeping the first appearance of each
element; `seen` collects what already appeared. -/
def dedupFirstAux : List PyStr → List PyStr → List PyStr
  | _, [] => []
  | seen, k :: rest =>
      if k ∈ seen then dedupFirstAux seen rest
      else k :: dedupFirstAux (k :: seen) rest

/-- First-occurrence deduplication of a list of keys. -/
def dedupFirst (l : List PyStr) : List PyStr :=
  dedupFirstAux [] l

section KeyedFoldLemmas

variable {α : Type}

theorem dictGet_foldl_dictSet (key : α → PyStr) (entries : List α)
    (m : Dict α) (k : PyStr) :
    dictGet (entries.foldl (fun m x => dictSet m (key x) x) m) k =
      ((lastWithKey key entries k).or (dictGet m k)) := by
  induction entries generalizing m with
  | nil => simp [lastWithKey]
  | cons d rest ih =>
    simp only [List.foldl_cons, lastWithKey]
    rw [ih]
    cases hl : lastWithKey key rest k with
    | some x => simp
    | none =>
      by_cases hk : key d = k
      · subst hk
        simp [dictGet_dictSet_self]
      · have hk' : ¬ k = key d := fun hh => hk hh.symm
        simp [hk, dictGet_dictSet_ne m (key d) k d hk']

theorem dedupFirstAux_congr (seen1 seen2 : List PyStr) (l : List PyStr)
    (h : ∀ x, x ∈ seen1 ↔ x ∈ seen2) :
    dedupFirstAux seen1 l = dedupFirstAux seen2 l := by
  induction l generalizing seen1 seen2 with
  | nil => rfl
  | cons k rest ih =>
    simp only [dedupFirstAux]
    by_cases hk : k ∈ seen1
    · rw [if_pos hk, if_pos ((h k).mp hk)]
      exact ih seen1 seen2 h
    · rw [if_neg hk, if_neg (fun hc => hk ((h k).mpr hc))]
      have h' : ∀ x, x ∈ k :: seen1 ↔ x ∈ k :: seen2 := by
        intro x
        simp only [List.mem_cons]
        exact or_congr Iff.rfl (h x)
      rw [ih (k :: seen1) (k :: seen2) h']

theorem dictKeys_foldl_dictSet (key : α → PyStr) (entries : List α)
    (m : Dict α) :
    dictKeys (entries.foldl (fun m x => dictSet m (key x) x) m) =
      dictKeys m ++ dedupFirstAux (dictKeys m) (entries.map key) := by
  induction entries generalizing m with
  | nil => simp [dedupFirstAux]
  | cons d rest ih =>
    simp only [List.foldl_cons, List.map_cons, dedupFirstAux]
    rw [ih]
    rw [dictKeys_dictSet]
    by_cases hmem : key d ∈ dictKeys m
    · rw [if_pos hmem, if_pos hmem]
    · rw [if_neg hmem, if_neg hmem]
      have hcongr : dedupFirstAux (dictKeys m ++ [key d]) (rest.map key) =
          dedupFirstAux (key d :: dictKeys m) (rest.map key) := by
        apply dedupFirstAux_congr
        intro x
        simp [List.mem_append, List.mem_cons, or_comm]
      rw [hcongr]
      simp

theorem nodup_dictKeys_foldl_dictSet (key : α → PyStr) (entries : List α)
    (m : Dict α) (hm : (dictKeys m).Nodup) :
    (dictKeys (entries.foldl (fun m x => dictSet m (key x) x) m)).Nodup := by
  induction entries generalizing m with
  | nil => simpa using hm
  | cons d rest ih =>
    simp only [List.foldl_cons]
    apply ih
    rw [dictKeys_dictSet]
    by_cases hmem : key d ∈ dictKeys m
    · rw [if_pos hmem]; exact hm
    · rw [if_neg hmem]
      rw [List.nodup_append]
      exact ⟨hm, List.nodup_singleton _, by simpa [List.disjoint_left] using hmem⟩

theorem lastWithKey_append (key : α → PyStr) (l1 l2 : List α) (k : PyStr) :
    lastWithKey key (l1 ++ l2) k =
      ((lastWithKey key l2 k).or (lastWithKey key l1 k)) := by
  induction l1 with
  | nil => simp [lastWithKey]
  | cons d rest ih =>
    simp only [List.cons_append, lastWithKey, List.append_eq]
    rw [ih]
    cases hl2 : lastWithKey key l2 k with
    | some x => simp
    | none => simp

theorem lastWithKey_eq_none (key : α → PyStr) (l : List α) (k : PyStr)
    (h : ∀ x ∈ l, key x ≠ k) : lastWithKey key l k = none := by
  induction l with
  | nil => rfl
  | cons d rest ih =>
    simp only [lastWithKey]
    rw [ih (fun x hx => h x (List.mem_cons_of_mem d hx))]
    simp [h d (List.mem_cons_self d rest)]

end KeyedFoldLemmas

section KeyedDecomp

variable {α : Type}

theorem dictGet_foldl_decomp (key : α → PyStr)
    (pre mid post : List α) (d1 d2 : α) (k : PyStr)
    (_h1 : key d1 = k) (h2 : key d2 = k) (hpost : ∀ x ∈ post, key x ≠ k) :
    dictGet ((pre ++ d1 :: (mid ++ d2 :: post)).foldl
      (fun m x => dictSet m (key x) x) []) k = some d2 := by
  rw [dictGet_foldl_dictSet]
  have hpost' : lastWithKey key post k = none := lastWithKey_eq_none key post k hpost
  have hd2 : lastWithKey key (d2 :: post) k = some d2 := by
    simp [lastWithKey, hpost', h2]
  have hmid : lastWithKey key (mid ++ d2 :: post) k = some d2 := by
    rw [lastWithKey_append, hd2]
    simp
  have hcons : lastWithKey key (d1 :: (mid ++ d2 :: post)) k = some d2 := by
    simp [lastWithKey, hmid]
  rw [lastWithKey_append, hcons]
  simp [dictGet]

theorem count_eq_one_of_nodup_mem (l : List PyStr) (k : PyStr)
    (hnd : l.Nodup) (hm : k ∈ l) : l.count k = 1 := by
  induction l with
  | nil => simp at hm
  | cons b rest ih =>
    have hb : b ∉ rest := (List.nodup_cons.mp hnd).1
    have hrest : rest.Nodup := (List.nodup_cons.mp hnd).2
    rcases List.mem_cons.mp hm with rfl | hm'
    · have hz : rest.count k = 0 := by
        rw [List.count_eq_zero]
        exact hb
      simp [List.count_cons, hz]
    · have hne : ¬ b = k := by
        intro hh
        subst hh
        exact hb hm'
      simp [List.count_cons, hne, ih hrest hm']

theorem count_keyed_foldl (key : α → PyStr) (entries : List α) (k : PyStr)
    (h : (dictGet (entries.foldl (fun m x => dictSet m (key x) x) []) k).isSome) :
    (dictKeys (entries.foldl (fun m x => dictSet m (key x) x) [])).count k = 1 := by
  have hnd : (dictKeys (entries.foldl (fun m x => dictSet m (key x) x) [])).Nodup :=
    nodup_dictKeys_foldl_dictSet key entries [] (by simp [dictKeys])
  exact count_eq_one_of_nodup_mem _ k hnd (mem_of_dictGet_isSome _ _ h)

theorem dictKeys_keyed_foldl (key : α → PyStr) (entries : List α) :
    dictKeys (entries.foldl (fun m x => dictSet m (key x) x) []) =
      dedupFirst (entries.map key) := by
  have h := dictKeys_foldl_dictSet key entries []
  simpa [dictKeys, dedupFirst] using h

end KeyedDecomp

theorem getServer_none_head (servers : List ServerRecord) (h : servers ≠ []) :
    getServer servers none = servers.head? := by
  cases servers with
  | nil => exact absurd rfl h
  | cons s rest => simp [getServer]

theorem getServer_name_eq (servers : List ServerRecord) (n : PyStr)
    (s : ServerRecord) (h : getServer servers (some n) = some s) :
    s.name = n := by
  induction servers with
  | nil => simp [getServer] at h
  | cons s0 rest ih =>
    by_cases h0 : n = s0.name
    · subst h0
      simp [getServer] at h
      subst h
      rfl
    · have hc : ¬ ((some n : Option PyStr) = none ∨
          (some n : Option PyStr) = some s0.name) := by
        simp [h0]
      simp only [getServer, if_neg hc] at h
      exact ih h

theorem getServer_first_match (pre post : List ServerRecord)
    (s : ServerRecord) (n : PyStr) (hs : s.name = n)
    (hpre : ∀ t ∈ pre, t.name ≠ n) :
    getServer (pre ++ s :: post) (some n) = some s := by
  induction pre with
  | nil => simp [getServer, hs]
  | cons t pre' ih =>
    have ht : t.name ≠ n := hpre t (List.mem_cons_self t pre')
    have hc : ¬ ((some n : Option PyStr) = none ∨
        (some n : Option PyStr) = some t.name) := by
      simp
      exact fun hh => ht hh.symm
    simp only [List.cons_append, getServer]
    rw [if_neg hc]
    exact ih (fun t' ht' => hpre t' (List.mem_cons_of_mem t ht'))

theorem getServer_none_iff (servers : List ServerRecord) (n : PyStr) :
    getServer servers (some n) = none ↔ ∀ s ∈ servers, s.name ≠ n := by
  induction servers with
  | nil => simp [getServer]
  | cons s0 rest ih =>
    by_cases h0 : n = s0.name
    · constructor
      · intro h
        simp [getServer, h0] at h
      · intro h
        exact absurd h0.symm (h s0 (List.mem_cons_self s0 rest))
    · have hc : ¬ ((some n : Option PyStr) = none ∨
          (some n : Option PyStr) = some s0.name) := by
        simp [h0]
      simp only [getServer, if_neg hc, ih]
      constructor
      · intro h s hs
        rcases List.mem_cons.mp hs with rfl | hs
        · exact fun hh => h0 hh.symm
        · exact h s hs
      · intro h s hs
        exact h s (List.mem_cons_of_mem s0 hs)

/-! ## The claims -/

/-- C7: with `size-column` absent or `type` unset, `type` resolves to
`graph`; with type `graph` and no supplied thresholds the resolved
thresholds are `[1,10,100,1000]`; with any other type and no supplied
thresholds they are `[1,10,100,200,400,600,800,1000]`; supplied
thresholds are kept verbatim regardless of type. -/
theorem size_column_defaults (d : SizeColumn) (t : SCType) (l : List Int) :
    (resolveSizeColumn none = ⟨some .graph, some [1, 10, 100, 1000]⟩) ∧
    (d.ty = none → d.thresholds = none →
      resolveSizeColumn (some d) = ⟨some .graph, some [1, 10, 100, 1000]⟩) ∧
    (d.ty = some .graph → d.thresholds = none →
      resolveSizeColumn (some d) = ⟨some .graph, some [1, 10, 100, 1000]⟩) ∧
    (d.ty = some t → t ≠ .graph → d.thresholds = none →
      (resolveSizeColumn (some d)).thresholds =
        some [1, 10, 100, 200, 400, 600, 800, 1000]) ∧
    (d.thresholds = some l →
      (resolveSizeColumn (some d)).thresholds = some l) := by
  refine ⟨rfl, ?_, ?_, ?_, ?_⟩
  · intro h1 h2
    simp [resolveSizeColumn, h1, h2]
  · intro h1 h2
    simp [resolveSizeColumn, h1, h2]
  · intro h1 hne h2
    simp [resolveSizeColumn, h1, h2, hne]
  · intro h
    by_cases hg : d.ty.getD .graph = .graph
    · simp [resolveSizeColumn, h, hg]
    · simp [resolveSizeColumn, h, hg]

/-- C7 witness: concrete instances of each defaulting rule. -/
theorem size_column_defaults_witness :
    resolveSizeColumn (some ⟨some .graph, none⟩) =
      ⟨some .graph, some [1, 10, 100, 1000]⟩ ∧
    (resolveSizeColumn (some ⟨some .number, none⟩)).thresholds =
      some [1, 10, 100, 200, 400, 600, 800, 1000] ∧
    (resolveSizeColumn (some ⟨some .graph, some [7]⟩)).thresholds = some [7] := by
  refine ⟨(size_column_defaults ⟨some .graph, none⟩ .number []).2.2.1 rfl rfl,
    (size_column_defaults ⟨some .number, none⟩ .number []).2.2.2.1 rfl (by decide) rfl,
    (size_column_defaults ⟨some .graph, some [7]⟩ .number [7]).2.2.2.2 rfl⟩

/-- C8: a stored password together with a file mode other than `0600`
is a fatal error carrying the path and the observed mode, before the
password is returned; mode `0600` lets the stored password through; an
absent password means the interactive prompt is used and the mode is
never examined. -/
theorem password_permission_check (path : PyStr) (st_mode : Nat)
    (pw prompted : PyStr) :
    (resolvePassword path st_mode none prompted = .ok prompted) ∧
    (st_mode % 0o1000 ≠ 0o600 →
      resolvePassword path st_mode (some pw) prompted =
        .error ⟨path, st_mode % 0o1000⟩) ∧
    (st_mode % 0o1000 = 0o600 →
      resolvePassword path st_mode (some pw) prompted = .ok pw) := by
  refine ⟨rfl, ?_, ?_⟩ <;> intro h <;> simp [resolvePassword, h]

/-- C8 witness: mode `0644` is rejected with the observed mode in the
error; mode `0600` is accepted. -/
theorem password_permission_check_witness :
    resolvePassword ("cfg".toList) 0o100644 (some ("pw".toList)) ("pr".toList)
      = .error ⟨"cfg".toList, 0o644⟩ ∧
    resolvePassword ("cfg".toList) 0o100600 (some ("pw".toList)) ("pr".toList)
      = .ok ("pw".toList) :=
  ⟨(password_permission_check ("cfg".toList) 0o100644 ("pw".toList)
      ("pr".toList)).2.1 (by decide),
   (password_permission_check ("cfg".toList) 0o100600 ("pw".toList)
      ("pr".toList)).2.2 (by decide)⟩

/-- C9: with no requested name `getServer` returns the first record of a
non-empty list; with a requested name it returns the first record whose
`name` matches, any returned record's name matches, and it returns
`None` exactly when no record matches. -/
theorem getServer_selection (servers : List ServerRecord) (n : PyStr) :
    (servers ≠ [] → getServer servers none = servers.head?) ∧
    (∀ s, getServer servers (some n) = some s → s.name = n) ∧
    (∀ pre s post, servers = pre ++ s :: post → s.name = n →
      (∀ t ∈ pre, t.name ≠ n) → getServer servers (some n) = some s) ∧
    (getServer servers (some n) = none ↔ ∀ s ∈ servers, s.name ≠ n) := by
  refine ⟨getServer_none_head servers, fun s h => getServer_name_eq servers n s h,
    ?_, getServer_none_iff servers n⟩
  rintro pre s post rfl hs hpre
  exact getServer_first_match pre post s n hs hpre

/-- C9 witness: a two-server list, selecting by absent name, by the
second server's name, and by an unknown name. -/
theorem getServer_selection_witness :
    getServer
      [{ name := "a".toList, url := "u".toList, username := "x".toList,
         gitRoot := "g".toList },
       { name := "b".toList, url := "v".toList, username := "y".toList,
         gitRoot := "h".toList }] (some ("b".toList))
      = some { name := "b".toList, url := "v".toList, username := "y".toList,
               gitRoot := "h".toList } ∧
    getServer
      [{ name := "a".toList, url := "u".toList, username := "x".toList,
         gitRoot := "g".toList }] none
      = some { name := "a".toList, url := "u".toList, username := "x".toList,
               gitRoot := "g".toList } ∧
    getServer
      [{ name := "a".toList, url := "u".toList, username := "x".toList,
         gitRoot := "g".toList }] (some ("z".toList)) = none := by
  refine ⟨(getServer_selection _ ("b".toList)).2.2.1
      [{ name := "a".toList, url := "u".toList, username := "x".toList,
         gitRoot := "g".toList }]
      { name := "b".toList, url := "v".toList, username := "y".toList,
        gitRoot := "h".toList } [] rfl (by decide) (by decide),
    ?_, ?_⟩
  · have h := (getServer_selection
      [{ name := "a".toList, url := "u".toList, username := "x".toList,
         gitRoot := "g".toList }] ("a".toList)).1 (by decide)
    simpa using h
  · exact (getServer_selection _ ("z".toList)).2.2.2.mpr (by decide)

/-- C10: when the document has a `size-column` section, the resolved
`size_column` is the document's own (mutated) mapping: after resolution
the document's entry equals the resolved value, both `type` and
`thresholds` are present in it, and whenever either key was absent the
document's entry no longer equals its pre-resolution value; a document
without the section stays without it. -/
theorem size_column_inplace_mutation (d : SizeColumn) :
    (docSizeColumnAfter (some d) = some (resolveSizeColumn (some d))) ∧
    ((resolveSizeColumn (some d)).ty.isSome ∧
      (resolveSizeColumn (some d)).thresholds.isSome) ∧
    (d.thresholds = none → docSizeColumnAfter (some d) ≠ some d) ∧
    (d.ty = none → docSizeColumnAfter (some d) ≠ some d) ∧
    (docSizeColumnAfter none = none) := by
  refine ⟨rfl, ⟨by simp [resolveSizeColumn], by simp [resolveSizeColumn]⟩, ?_, ?_, rfl⟩
  · intro h hcon
    have hcon2 : resolveSizeColumn (some d) = d := by
      simpa [docSizeColumnAfter] using hcon
    have hth : (resolveSizeColumn (some d)).thresholds = none := by
      rw [hcon2]; exact h
    simp [resolveSizeColumn] at hth
  · intro h hcon
    have hcon2 : resolveSizeColumn (some d) = d := by
      simpa [docSizeColumnAfter] using hcon
    have hty : (resolveSizeColumn (some d)).ty = none := by
      rw [hcon2]; exact h
    simp [resolveSizeColumn] at hty

/-- C10 witness: a section with thresholds absent is visibly mutated. -/
theorem size_column_inplace_mutation_witness :
    docSizeColumnAfter (some ⟨some .graph, none⟩) ≠ some ⟨some .graph, none⟩ ∧
    docSizeColumnAfter (some ⟨some .graph, none⟩) =
      some (resolveSizeColumn (some ⟨some .graph, none⟩)) :=
  ⟨(size_column_inplace_mutation ⟨some .graph, none⟩).2.2.1 rfl,
   (size_column_inplace_mutation ⟨some .graph, none⟩).1⟩

/-- C1 is false on the code: `self.config.get('palette', palette)`
prefers the document's field.  With the document declaring
`palette: default` and the construction-time override `light`, the
resolved name is the document's `default` and the active palette is
`palettes['default']`, not the override's `palettes['light']`. -/
theorem palette_override_precedence_counterexample :
    resolvePaletteName (some ("default".toList)) ("light".toList) ≠ "light".toList ∧
    selectPalette (resolvePalettes [("x".toList, [])] [])
        (some ("default".toList)) ("light".toList) ≠
      dictGet (resolvePalettes [("x".toList, [])] []) ("light".toList) := by
  decide

/-- C1 (amended): the document's `palette` / `keymap` field takes
precedence; the construction-time parameter is only the fallback used
when the document does not declare the field. -/
theorem palette_keymap_document_precedence
    (ps : Dict PaletteFields) (ks : Dict KeymapFields)
    (docP docK : Option PyStr) (paramP paramK n m : PyStr) :
    (docP = some n → resolvePaletteName docP paramP = n ∧
      selectPalette ps docP paramP = dictGet ps n) ∧
    (docP = none → resolvePaletteName docP paramP = paramP ∧
      selectPalette ps docP paramP = dictGet ps paramP) ∧
    (docK = some m → resolveKeymapName docK paramK = m ∧
      selectKeymap ks docK paramK = dictGet ks m) ∧
    (docK = none → resolveKeymapName docK paramK = paramK ∧
      selectKeymap ks docK paramK = dictGet ks paramK) := by
  refine ⟨?_, ?_, ?_, ?_⟩ <;> rintro rfl <;>
    simp [resolvePaletteName, resolveKeymapName, selectPalette, selectKeymap]

/-- C1 witness: the document's declared name wins; the parameter is
used when the document is silent. -/
theorem palette_keymap_document_precedence_witness :
    resolvePaletteName (some ("light".toList)) ("default".toList) = "light".toList ∧
    resolveKeymapName none ("vi".toList) = "vi".toList :=
  ⟨((palette_keymap_document_precedence [] [] (some ("light".toList)) none
      ("default".toList) ("vi".toList) ("light".toList) ("x".toList)).1 rfl).1,
   ((palette_keymap_document_precedence [] [] (some ("light".toList)) none
      ("default".toList) ("vi".toList) ("light".toList) ("x".toList)).2.2.2 rfl).1⟩

/-- C2 is false as stated: an input url already ending in two slashes is
kept unchanged, so the resolved url does not end in exactly one slash. -/
theorem url_exactly_one_slash_counterexample :
    ¬ endsWithExactlyOneSlash (resolveUrl ("http://h//".toList)) := by
  decide

/-- C2 (amended): the resolved `url` and `git_url` always end in at
least one slash; they end in exactly one slash whenever the input did
not already end in two or more (the code only appends a slash when the
last character is not a slash and never strips extras); the defaulted
`git_url` always ends in exactly one slash. -/
theorem url_git_url_trailing_slash (server_url : PyStr) (git_url : Option PyStr) :
    (['/'] <:+ resolveUrl server_url) ∧
    (¬ (['/', '/'] <:+ server_url) →
      endsWithExactlyOneSlash (resolveUrl server_url)) ∧
    (['/'] <:+ resolveGitUrl git_url (resolveUrl server_url)) ∧
    ((∀ g, git_url = some g → ¬ (['/', '/'] <:+ g)) →
      endsWithExactlyOneSlash (resolveGitUrl git_url (resolveUrl server_url))) := by
  refine ⟨slash_suffix_ensureTrailingSlash _,
    fun h => ensureTrailingSlash_exactlyOne _ h,
    slash_suffix_ensureTrailingSlash _, ?_⟩
  intro hg
  cases git_url with
  | some g =>
    simp only [resolveGitUrl, Option.getD_some]
    exact ensureTrailingSlash_exactlyOne _ (hg g rfl)
  | none =>
    simp only [resolveGitUrl, Option.getD_none]
    exact ensureTrailingSlash_exactlyOne _ (not_two_slash_append_p _)

/-- C2 witness: a url without a trailing slash resolves to exactly one,
and the defaulted git url ends in exactly one slash. -/
theorem url_git_url_trailing_slash_witness :
    endsWithExactlyOneSlash (resolveUrl ("http://h".toList)) ∧
    endsWithExactlyOneSlash (resolveGitUrl none (resolveUrl ("http://h".toList))) :=
  ⟨(url_git_url_trailing_slash ("http://h".toList) none).2.1 (by decide),
   (url_git_url_trailing_slash ("http://h".toList) none).2.2.2
     (fun g h => nomatch h)⟩

/-- C3 is false as stated: a three-element list of integers passes the
thresholds validator although its length is not 8 (a voluptuous list
schema checks elements, not arity). -/
theorem thresholds_arity_counterexample :
    thresholdsValid [.int 1, .int 2, .int 3] = true ∧
    [Scalar.int 1, .int 2, .int 3].length ≠ 8 := by
  decide

/-- C3 (amended): the thresholds validator accepts a list exactly when
every element is an integer; the length of the list is not constrained. -/
theorem thresholds_schema_accepts_int_lists (xs : List Scalar) :
    thresholdsValid xs = true ↔ ∀ x ∈ xs, isIntValue x = true := by
  rw [thresholdsValid_eq_all_int]
  exact List.all_eq_true

/-- C3 witness: a two-element integer list is accepted. -/
theorem thresholds_schema_accepts_int_lists_witness :
    thresholdsValid [.int 4, .int 5] = true :=
  (thresholds_schema_accepts_int_lists [.int 4, .int 5]).mpr (by decide)

/-- C4: a user palette/keymap entry whose name is already present is
shallow-merged into the existing object (user fields overriding), one
with a new name is inserted as a fresh object, and the `default` entry
is present in every resolved collection. -/
theorem palette_keymap_merge :
    (∀ (light : PaletteFields) (entries : List (NamedEntry (List PyStr))),
      (dictGet (resolvePalettes light entries) ("default".toList)).isSome) ∧
    (∀ (vi : KeymapFields) (entries : List (NamedEntry KeyBinding)),
      (dictGet (resolveKeymaps vi entries) ("default".toList)).isSome) ∧
    (∀ (β : Type) (m : Dict (Dict β)) (e : NamedEntry β) (base : Dict β),
      dictGet m e.name = some base →
      dictGet (mergeStep m e) e.name = some (dictUpdate base e.fields)) ∧
    (∀ (β : Type) (m : Dict (Dict β)) (e : NamedEntry β),
      dictGet m e.name = none →
      dictGet (mergeStep m e) e.name = some e.fields) ∧
    (∀ (β : Type) (base new : Dict β) (k : PyStr),
      (dictKeys new).Nodup →
      dictGet (dictUpdate base new) k = ((dictGet new k).or (dictGet base k))) := by
  refine ⟨?_, ?_, fun β m e base h => mergeStep_merge m e base h,
    fun β m e h => mergeStep_insert m e h,
    fun β base new k h => dictGet_dictUpdate base new k h⟩
  · intro light entries
    exact dictGet_isSome_foldl_mergeStep entries _ _ (by simp [dictGet])
  · intro vi entries
    exact dictGet_isSome_foldl_mergeStep entries _ _ (by simp [dictGet])

/-- C4 witness: merging into `default` keeps the merged fields, a new
name is inserted verbatim, and the user value wins on a conflicting
field. -/
theorem palette_keymap_merge_witness :
    dictGet (mergeStep [("default".toList, ([] : PaletteFields))]
        ⟨"default".toList, [("attr".toList, ["v".toList])]⟩) ("default".toList)
      = some (dictUpdate ([] : PaletteFields) [("attr".toList, ["v".toList])]) ∧
    dictGet (mergeStep ([] : Dict PaletteFields) ⟨"new".toList, []⟩) ("new".toList)
      = some [] ∧
    dictGet (dictUpdate [("a".toList, ["old".toList])]
        [("a".toList, ["new".toList])]) ("a".toList)
      = ((dictGet [("a".toList, (["new".toList] : List PyStr))] ("a".toList)).or
          (dictGet [("a".toList, ["old".toList])] ("a".toList))) := by
  refine ⟨palette_keymap_merge.2.2.1 (List PyStr) _ _ _ (by decide),
    palette_keymap_merge.2.2.2.1 (List PyStr) _ _ (by decide),
    palette_keymap_merge.2.2.2.2 (List PyStr) _ _ _ (by decide)⟩

/-- C5: the resolved comment-link list is the user rules in document
order followed by the synthetic URL-autolink rule, which is present for
every input and is always the last element. -/
theorem commentlinks_synthetic_last (user : List CommentLinkConfig) :
    (resolveCommentlinks user).dropLast = user.map CommentLink.mk ∧
    (resolveCommentlinks user).getLast? = some (CommentLink.mk urlAutolinkRule) ∧
    (resolveCommentlinks user).length = user.length + 1 := by
  unfold resolveCommentlinks
  refine ⟨List.dropLast_concat .., List.getLast?_concat _, by simp⟩

/-- C6: in `dashboards`/`reviewkeys` with two entries sharing a key, the
resolved mapping holds exactly one entry under that key, namely the
later one, and the key order of the mapping is the first-insertion
order. -/
theorem keyed_list_overwrite_order :
    (∀ (pre mid post : List Dashboard) (d1 d2 : Dashboard) (k : PyStr),
      d1.key = k → d2.key = k → (∀ x ∈ post, x.key ≠ k) →
      dictGet (resolveDashboards (pre ++ d1 :: (mid ++ d2 :: post))) k = some d2 ∧
      (dictKeys (resolveDashboards (pre ++ d1 :: (mid ++ d2 :: post)))).count k = 1) ∧
    (∀ (pre mid post : List ReviewKey) (r1 r2 : ReviewKey) (k : PyStr),
      r1.key = k → r2.key = k → (∀ x ∈ post, x.key ≠ k) →
      dictGet (resolveReviewkeys (pre ++ r1 :: (mid ++ r2 :: post))) k = some r2 ∧
      (dictKeys (resolveReviewkeys (pre ++ r1 :: (mid ++ r2 :: post)))).count k = 1) ∧
    (∀ ds : List Dashboard,
      dictKeys (resolveDashboards ds) = dedupFirst (ds.map Dashboard.key)) ∧
    (∀ ks : List ReviewKey,
      dictKeys (resolveReviewkeys ks) = dedupFirst (ks.map ReviewKey.key)) := by
  refine ⟨?_, ?_, fun ds => dictKeys_keyed_foldl Dashboard.key ds,
    fun ks => dictKeys_keyed_foldl ReviewKey.key ks⟩
  · intro pre mid post d1 d2 k h1 h2 hpost
    have hget := dictGet_foldl_decomp Dashboard.key pre mid post d1 d2 k h1 h2 hpost
    exact ⟨hget, count_keyed_foldl Dashboard.key _ k (by rw [hget]; rfl)⟩
  · intro pre mid post r1 r2 k h1 h2 hpost
    have hget := dictGet_foldl_decomp ReviewKey.key pre mid post r1 r2 k h1 h2 hpost
    exact ⟨hget, count_keyed_foldl ReviewKey.key _ k (by rw [hget]; rfl)⟩

/-- C6 witness: two dashboards with the same key resolve to a single
entry holding the later dashboard. -/
theorem keyed_list_overwrite_order_witness :
    dictGet (resolveDashboards
      [⟨"n1".toList, "q1".toList, none, none, "k".toList⟩,
       ⟨"n2".toList, "q2".toList, none, none, "k".toList⟩]) ("k".toList)
      = some ⟨"n2".toList, "q2".toList, none, none, "k".toList⟩ ∧
    (dictKeys (resolveDashboards
      [⟨"n1".toList, "q1".toList, none, none, "k".toList⟩,
       ⟨"n2".toList, "q2".toList, none, none, "k".toList⟩])).count ("k".toList) = 1 :=
  keyed_list_overwrite_order.1 [] [] []
    ⟨"n1".toList, "q1".toList, none, none, "k".toList⟩
    ⟨"n2".toList, "q2".toList, none, none, "k".toList⟩ ("k".toList)
    rfl rfl (by decide)
